import Mathlib

/-!
Verification model of the archive abstraction layer of `addons-scanner-utils`:
the CRX header parser (`src/io/crx.ts`), the Xpi zip reader (`src/io/xpi.ts`),
the directory reader (`src/io/directory.ts`) and the shared `IOBase` contract
(`src/io/base.ts`).  JS buffers are modelled as lists of bytes (`Fin 256`),
JS strings as Lean strings manipulated through their character lists, entry
tables as association lists in insertion order, and the event-driven zip
enumeration as a fold over the stream of entries in emission order.  Promise
rejection is modelled by recording the first error raised during a fold
(later `reject` calls on an already settled promise are no-ops), while the
instance state keeps evolving to the end of the stream, exactly as the
mutable fields of the JS class do.
-/

deriving instance DecidableEq for Except

namespace ScannerUtils

/-- A byte of a Node `Buffer`. -/
abbrev Byte := Fin 256

/-- Model of `Buffer.prototype.readUInt32BE(off)`: `none` models the
`RangeError` Node throws when fewer than 4 bytes are available. -/
def readUInt32BE (buf : List Byte) (off : Nat) : Option Nat :=
  if off + 4 ≤ buf.length then
    some ((buf.getD off 0).val * 16777216 + (buf.getD (off + 1) 0).val * 65536 +
      (buf.getD (off + 2) 0).val * 256 + (buf.getD (off + 3) 0).val)
  else none

/-- Model of `Buffer.prototype.readUInt32LE(off)`. -/
def readUInt32LE (buf : List Byte) (off : Nat) : Option Nat :=
  if off + 4 ≤ buf.length then
    some ((buf.getD off 0).val + (buf.getD (off + 1) 0).val * 256 +
      (buf.getD (off + 2) 0).val * 65536 + (buf.getD (off + 3) 0).val * 16777216)
  else none

/-- The ASCII bytes of the magic `Cr24` (0x43 0x72 0x32 0x34). -/
def crxMagic : List Byte := [0x43, 0x72, 0x32, 0x34]

def invalidHeaderMsg : String := "Invalid header: Does not start with Cr24."

def unexpectedVersionMsg : String := "Unexpected crx format version number."

/-- Stands for the `RangeError` a Node buffer read throws past the end. -/
def rangeErrorMsg : String := "RangeError: attempt to read beyond buffer length"

/-- Model of `defaultParseCRX` from `src/io/crx.ts`.  `Buffer.slice(start)`
is `List.drop start`. -/
def defaultParseCRX (buf : List Byte) : Except String (List Byte) :=
  match readUInt32BE buf 0 with
  | none => .error rangeErrorMsg
  | some magic =>
    if magic ≠ 0x43723234 then .error invalidHeaderMsg
    else
      match readUInt32LE buf 4 with
      | none => .error rangeErrorMsg
      | some version =>
        if version = 2 then
          match readUInt32LE buf 8, readUInt32LE buf 12 with
          | some publicKeyLength, some signatureLength =>
              .ok (buf.drop (16 + publicKeyLength + signatureLength))
          | _, _ => .error rangeErrorMsg
        else if version = 3 then
          match readUInt32LE buf 8 with
          | some crx3HeaderLength => .ok (buf.drop (12 + crx3HeaderLength))
          | none => .error rangeErrorMsg
        else .error unexpectedVersionMsg

/-- Boolean test that `pre` is a character-wise prefix of `s`
(JS `String.prototype.startsWith`). -/
def charsPrefixOf : List Char → List Char → Bool
  | [], _ => true
  | _ :: _, [] => false
  | a :: as, b :: bs => if a = b then charsPrefixOf as bs else false

def strPrefixOf (pre s : String) : Bool := charsPrefixOf pre.data s.data

/-- JS `String.prototype.endsWith`. -/
def strSuffixOf (suf s : String) : Bool := charsPrefixOf suf.data.reverse s.data.reverse

/-- JS regular expression test `/\/$/.test(s)`: the last character is a slash. -/
def strEndsWithChar (s : String) (c : Char) : Bool := s.data.getLast? = some c

/-- JS `s.startsWith(c)` for a single character (also `s.indexOf(c) === 0`). -/
def strStartsWithChar (s : String) (c : Char) : Bool := s.data.head? = some c

/-- A yauzl zip entry as used by the Xpi reader, together with the bytes the
per-entry read stream would produce. -/
structure Entry where
  fileName : String
  uncompressedSize : Nat
  contents : List Byte
deriving DecidableEq

/-- The typed errors of `src/errors.ts` that `getFiles` can reject with. -/
inductive XpiError where
  | duplicateEntry (fileName : String)
  | invalidZipFile (message : String)
deriving DecidableEq

/-- The mutable fields of an `Xpi` instance (including those inherited from
`IOBase`).  The low-level `zipfile` handle is modelled by whether the field
has been assigned (`zipfileSet`) and whether the handle is open
(`zipfileIsOpen`). -/
structure XpiState where
  path : String
  files : List (String × Entry)
  entries : List String
  processed : Bool
  shouldScanFile : String → Bool → Bool
  autoClose : Bool
  zipfileSet : Bool
  zipfileIsOpen : Bool
  maxSizeBytes : Nat

/-- Modelled from the spec: `src/io/const.ts` is not part of the sources, but
the oversized-file guard is specified against a 100MB ceiling and the IOBase
tests pin `maxSizeBytes` to 104857600. -/
def MAX_FILE_SIZE_MB : Nat := 100

/-- The `Xpi` constructor (with the `IOBase` constructor folded in). -/
def mkXpi (filePath : String) (autoClose : Bool) : XpiState :=
  { path := filePath, files := [], entries := [], processed := false,
    shouldScanFile := fun _ _ => true, autoClose := autoClose,
    zipfileSet := false, zipfileIsOpen := false,
    maxSizeBytes := 1024 * 1024 * MAX_FILE_SIZE_MB }

/-- `IOBase.setScanFileCallback`: installs the predicate (in JS a
non-function argument is ignored; in the typed model every argument is a
function). -/
def setScanFileCallback (st : XpiState) (callback : String → Bool → Bool) : XpiState :=
  { st with shouldScanFile := callback }

/-- Outcome of `Xpi.open()`: the updated instance and whether the low-level
`zipLib.open` primitive was invoked (false when the still-open descriptor is
reused). -/
structure OpenResult where
  state : XpiState
  invokedZipOpen : Bool

/-- `Xpi.open()`: reuses the existing handle only when `autoClose` is
disabled and a still-open zipfile exists; otherwise performs a fresh
low-level open and assigns `this.zipfile`. -/
def xpiOpen (st : XpiState) : OpenResult :=
  if st.autoClose = false ∧ st.zipfileSet = true ∧ st.zipfileIsOpen = true then
    { state := st, invokedZipOpen := false }
  else
    { state := { st with zipfileSet := true, zipfileIsOpen := true },
      invokedZipOpen := true }

/-- `Xpi.close()`: a no-op under `autoClose`; otherwise closes the held
handle when one was assigned.  The boolean reports whether
`this.zipfile.close()` was called. -/
def xpiClose (st : XpiState) : XpiState × Bool :=
  if st.autoClose then (st, false)
  else if st.zipfileSet then ({ st with zipfileIsOpen := false }, true)
  else (st, false)

/-- Accumulator for one enumeration pass: the table and entry list being
mutated, and the first error passed to `reject` (later rejections on a
settled promise are no-ops). -/
structure EnumAcc where
  files : List (String × Entry)
  entries : List String
  firstError : Option XpiError

/-- `Xpi.handleEntry`: directory markers are skipped, entries refused by the
scan predicate are skipped, a file name already in `this.entries` rejects
with a duplicate-entry error, and otherwise the entry is appended to
`this.entries` and `this.files`. -/
def handleEntry (scan : String → Bool → Bool) (acc : EnumAcc) (e : Entry) : EnumAcc :=
  if strEndsWithChar e.fileName '/' then acc
  else if scan e.fileName false = false then acc
  else if e.fileName ∈ acc.entries then
    if acc.firstError = none then
      { acc with firstError := some (XpiError.duplicateEntry e.fileName) }
    else acc
  else { acc with entries := acc.entries ++ [e.fileName],
                  files := acc.files ++ [(e.fileName, e)] }

/-- One full enumeration: every `entry` event of the stream is handled in
emission order (the promise may settle early, but yauzl keeps emitting and
the handlers keep running). -/
def enumFold (scan : String → Bool → Bool) (acc : EnumAcc) (stream : List Entry) : EnumAcc :=
  stream.foldl (handleEntry scan) acc

/-- Whether `handleEntry` lets an entry through to the duplicate check:
not a directory marker and accepted by the scan predicate. -/
def isScannedFile (scan : String → Bool → Bool) (e : Entry) : Bool :=
  if strEndsWithChar e.fileName '/' then false else scan e.fileName false

/-- The file names of a stream that reach the duplicate check, in order. -/
def acceptedNames (scan : String → Bool → Bool) (stream : List Entry) : List String :=
  (stream.filter (isScannedFile scan)).map Entry.fileName

/-- Result of one `Xpi.getFiles()` call: the settled promise value, the
instance state once the stream finished, and whether `zipLib.open` was
invoked. -/
structure GetFilesResult where
  result : Except XpiError (List (String × Entry))
  state : XpiState
  invokedZipOpen : Bool

/-- `Xpi.getFiles()`: once `this.processed` is set the cached table is
re-filtered against the current scan predicate and returned without any
open; otherwise the archive is opened, the entry stream is consumed, the
`end` event marks the instance processed, and the promise settles with the
first rejection if one happened, else with `this.files`. -/
def xpiGetFiles (st : XpiState) (stream : List Entry) : GetFilesResult :=
  if st.processed then
    { result := .ok (st.files.filter fun f => st.shouldScanFile f.1 false),
      state := st, invokedZipOpen := false }
  else
    let opened := xpiOpen st
    let fin := enumFold opened.state.shouldScanFile
      { files := opened.state.files, entries := opened.state.entries, firstError := none } stream
    { result := match fin.firstError with
        | some e => .error e
        | none => .ok fin.files,
      state := { opened.state with
        files := fin.files, entries := fin.entries, processed := true },
      invokedZipOpen := opened.invokedZipOpen }

/-- First-match lookup in an association list (JS property access on the
`files` object). -/
def assocLookup {α : Type} (files : List (String × α)) (p : String) : Option α :=
  (files.find? fun f => f.1 = p).map Prod.snd

def pathNoExistXpiMsg (p : String) : String :=
  "Path \"" ++ p ++ "\" does not exist in this XPI"

def tooLargeXpiMsg (p : String) : String :=
  "File \"" ++ p ++ "\" is too large. Aborting."

/-- `Xpi.checkPath`: existence first, then the size ceiling.  The entry is
returned so the accessors can use it (the JS method re-reads
`this.files[path]`). -/
def checkPath (st : XpiState) (p : String) : Except String Entry :=
  match assocLookup st.files p with
  | none => .error (pathNoExistXpiMsg p)
  | some entry =>
    if entry.uncompressedSize > st.maxSizeBytes then .error (tooLargeXpiMsg p)
    else .ok entry

/-- The UTF-8 byte-order mark. -/
def utf8BOM : List Byte := [0xEF, 0xBB, 0xBF]

/-- `strip-bom-stream`: drops a leading UTF-8 BOM, if present, from the
streamed bytes. -/
def stripBOM (bs : List Byte) : List Byte :=
  if bs.take 3 = utf8BOM then bs.drop 3 else bs

/-- Result of a file accessor: the settled value (the bytes the consumer
would read) and whether a low-level read stream was opened. -/
structure StreamAccess where
  result : Except String (List Byte)
  openedReadStream : Bool
deriving DecidableEq

/-- `Xpi.getFileAsStream`: `checkPath` throws before any open; on success the
per-entry read stream is piped through `strip-bom-stream`. -/
def xpiGetFileAsStream (st : XpiState) (p : String) : StreamAccess :=
  match checkPath st p with
  | .error msg => { result := .error msg, openedReadStream := false }
  | .ok entry => { result := .ok (stripBOM entry.contents), openedReadStream := true }

/-- `Xpi.getFileAsString`: buffers the whole stream produced by
`getFileAsStream` (UTF-8 decoding is not modelled; the buffered bytes are
returned). -/
def xpiGetFileAsString (st : XpiState) (p : String) : StreamAccess :=
  let s := xpiGetFileAsStream st p
  { result := s.result, openedReadStream := s.openedReadStream }

/-- `Xpi.getChunkAsBuffer`: `checkPath` throws before any open; on success
`FirstChunkStream` hands back the first `chunkLength` bytes of the raw entry
stream (fewer when the entry is shorter), with no BOM stripping. -/
def xpiGetChunkAsBuffer (st : XpiState) (p : String) (chunkLength : Nat) : StreamAccess :=
  match checkPath st p with
  | .error msg => { result := .error msg, openedReadStream := false }
  | .ok entry => { result := .ok (entry.contents.take chunkLength), openedReadStream := true }

/-- A record of the `Directory` reader's table: `walkPromise` stores the stat
size of each regular file. -/
structure DirFile where
  size : Nat
deriving DecidableEq

/-- The fields of a `Directory` instance the path accessors use. -/
structure DirState where
  path : String
  files : List (String × DirFile)
  maxSizeBytes : Nat
deriving DecidableEq

def pathNoExistDirMsg (p : String) : String :=
  "Path \"" ++ p ++ "\" does not exist in this dir."

def tooLargeDirMsg (p : String) : String :=
  "File \"" ++ p ++ "\" is too large. Aborting"

def mustBeRelativeMsg (dirPath : String) : String :=
  "Path argument must be relative to " ++ dirPath

/-- Split a character list on `/`. -/
def splitOnSlash : List Char → List (List Char)
  | [] => [[]]
  | c :: rest =>
    let r := splitOnSlash rest
    if c = '/' then [] :: r
    else
      match r with
      | [] => [[c]]
      | h :: t => (c :: h) :: t

/-- The non-empty segments of a POSIX path. -/
def splitPath (s : String) : List String :=
  ((splitOnSlash s.data).filter fun l => l ≠ []).map String.mk

/-- POSIX normalization of the segments of an absolute path: `.` is dropped,
`..` pops the previous segment (and is dropped at the root). -/
def normSegs (segs : List String) : List String :=
  segs.foldl
    (fun acc seg =>
      if seg = "." then acc
      else if seg = ".." then acc.dropLast
      else acc ++ [seg]) []

/-- The characters of `/seg1/seg2/...`. -/
def renderAbsChars (segs : List String) : List Char :=
  (segs.map fun seg => '/' :: seg.data).flatten

/-- Render normalized absolute segments back to a path string (the root
renders as `/`). -/
def renderAbs (segs : List String) : String :=
  if segs = [] then "/" else String.mk (renderAbsChars segs)

/-- Node `path.resolve(p)` against a current working directory given as
normalized absolute segments. -/
def resolvePath (cwd : List String) (p : String) : List String :=
  if strStartsWithChar p '/' then normSegs (splitPath p)
  else normSegs (cwd ++ splitPath p)

/-- `Directory.getPath`: existence check, size ceiling, then the
belt-and-braces traversal guard of the source: the resolved file path
(`path.resolve(path.join(absoluteDirPath, _path))`) must have the resolved
root as a string prefix and the relative path must not start with `/`. -/
def dirGetPath (cwd : List String) (st : DirState) (p : String) : Except String String :=
  match assocLookup st.files p with
  | none => .error (pathNoExistDirMsg p)
  | some f =>
    if f.size > st.maxSizeBytes then .error (tooLargeDirMsg p)
    else
      let rootSegs := resolvePath cwd st.path
      let absoluteDirPath := renderAbs rootSegs
      let filePath := renderAbs (normSegs (rootSegs ++ splitPath p))
      if strPrefixOf absoluteDirPath filePath = false ∨ strStartsWithChar p '/' then
        .error (mustBeRelativeMsg st.path)
      else .ok filePath

/-- The spec notion of the traversal guard: the resolved file path falls
under the resolved archive root, segment-wise. -/
def spec_liesUnderRoot : List String → List String → Bool
  | [], _ => true
  | _ :: _, [] => false
  | a :: as, b :: bs => if a = b then spec_liesUnderRoot as bs else false

/-- `Directory.getFileAsStream` with the default `utf8` encoding: resolves
the path, reads the file (`fs` maps resolved paths to contents) and pipes it
through `strip-bom-stream`. -/
def dirGetFileAsStream (cwd : List String) (fs : String → Option (List Byte))
    (st : DirState) (p : String) : StreamAccess :=
  match dirGetPath cwd st p with
  | .error msg => { result := .error msg, openedReadStream := false }
  | .ok filePath =>
    match fs filePath with
    | none => { result := .error "ENOENT", openedReadStream := true }
    | some bytes => { result := .ok (stripBOM bytes), openedReadStream := true }

/-- `Directory.getChunkAsBuffer`: resolves the path, opens a raw
(no-encoding) read stream and keeps only the first `chunkLength` bytes. -/
def dirGetChunkAsBuffer (cwd : List String) (fs : String → Option (List Byte))
    (st : DirState) (p : String) (chunkLength : Nat) : StreamAccess :=
  match dirGetPath cwd st p with
  | .error msg => { result := .error msg, openedReadStream := false }
  | .ok filePath =>
    match fs filePath with
    | none => { result := .error "ENOENT", openedReadStream := true }
    | some bytes => { result := .ok (bytes.take chunkLength), openedReadStream := true }

def extMustStartWithDotMsg : String := "File extension must start with '.'"

/-- Result of `IOBase.getFilesByExt`: the settled value and whether
`this.getFiles()` was reached. -/
structure FilesByExtResult where
  result : Except String (List String)
  invokedGetFiles : Bool
deriving DecidableEq

/-- `IOBase.getFilesByExt`: every extension must start with a dot (checked
before `getFiles()`); then for each file name of the table, in order, the
name is pushed once per extension it ends with.  `fileNames` stands for
`Object.keys(await this.getFiles())`. -/
def getFilesByExt (extensions : List String) (fileNames : List String) : FilesByExtResult :=
  match extensions.find? (fun ext => strStartsWithChar ext '.' = false) with
  | some _ => { result := .error extMustStartWithDotMsg, invokedGetFiles := false }
  | none =>
    { result := .ok (fileNames.foldl
        (fun acc fn =>
          acc ++ (extensions.filter fun ext => strSuffixOf ext fn).map fun _ => fn) []),
      invokedGetFiles := true }

/-- Outcome of `Crx.open()`: the settled promise (the recovered zip payload
stands for the in-memory zipfile), the instance afterwards, and a trace of
what the call did. -/
structure CrxOpenResult where
  result : Except String (List Byte)
  state : XpiState
  readFileFromDisk : Bool
  parsedCRXHeader : Bool
  reusedDescriptor : Bool

/-- The `Crx` constructor: `super({ filePath, stderr, zipLib, autoClose: true })`. -/
def mkCrx (filePath : String) : XpiState := mkXpi filePath true

/-- `Crx.open()` override: always reads the whole file from disk
(`readResult` is what `fs.readFile` produced), parses the CRX header, and
opens the recovered buffer in memory.  It never touches `this.zipfile` and
never consults the inherited descriptor-reuse short-circuit. -/
def crxOpen (st : XpiState) (readResult : Except String (List Byte)) : CrxOpenResult :=
  match readResult with
  | .error e =>
    { result := .error e, state := st, readFileFromDisk := true,
      parsedCRXHeader := false, reusedDescriptor := false }
  | .ok buf =>
    match defaultParseCRX buf with
    | .error e2 =>
      { result := .error e2, state := st, readFileFromDisk := true,
        parsedCRXHeader := true, reusedDescriptor := false }
    | .ok zipBuffer =>
      { result := .ok zipBuffer, state := st, readFileFromDisk := true,
        parsedCRXHeader := true, reusedDescriptor := false }

/-- Occurrence count of a name in a list of names. -/
def countOcc (s : String) : List String → Nat
  | [] => 0
  | x :: xs => (if x = s then 1 else 0) + countOcc s xs

/-- The names of a list other than `p`, in order. -/
def othersThan (p : String) : List String → List String
  | [] => []
  | x :: xs => if x = p then othersThan p xs else x :: othersThan p xs

end ScannerUtils

namespace ScannerUtils

/-- Claim C1: for a buffer starting with the magic `Cr24`, `defaultParseCRX`
returns the suffix from offset `16 + publicKeyLength + signatureLength` when
the little-endian version field at offset 4 is 2, and the suffix from offset
`12 + headerLength` when it is 3; a buffer whose first 4 bytes are not `Cr24`
fails with a message starting with `Invalid header`, and a recognized magic
with a version outside 2 and 3 fails with a message starting with
`Unexpected crx format version`. -/
theorem defaultParseCRX_spec (buf : List Byte) :
    (∀ pk sig, buf.take 4 = crxMagic → readUInt32LE buf 4 = some 2 →
      readUInt32LE buf 8 = some pk → readUInt32LE buf 12 = some sig →
      defaultParseCRX buf = .ok (buf.drop (16 + pk + sig))) ∧
    (∀ hlen, buf.take 4 = crxMagic → readUInt32LE buf 4 = some 3 →
      readUInt32LE buf 8 = some hlen →
      defaultParseCRX buf = .ok (buf.drop (12 + hlen))) ∧
    (4 ≤ buf.length → buf.take 4 ≠ crxMagic →
      defaultParseCRX buf = .error invalidHeaderMsg ∧
      strPrefixOf "Invalid header" invalidHeaderMsg = true) ∧
    (∀ v, buf.take 4 = crxMagic → readUInt32LE buf 4 = some v → v ≠ 2 → v ≠ 3 →
      defaultParseCRX buf = .error unexpectedVersionMsg ∧
      strPrefixOf "Unexpected crx format version" unexpectedVersionMsg = true) := by
  have take4 : ∀ (l : List Byte) (a b c d : Byte), l.take 4 = [a, b, c, d] →
      ∃ t, l = a :: b :: c :: d :: t := by
    intro l a b c d h
    match l with
    | [] => simp at h
    | [x] => simp at h
    | [x, y] => simp at h
    | [x, y, z] => simp at h
    | x :: y :: z :: w :: t =>
      simp [List.take] at h
      obtain ⟨h1, h2, h3, h4⟩ := h
      exact ⟨t, by simp [h1, h2, h3, h4]⟩
  have beOfMagic : buf.take 4 = crxMagic → readUInt32BE buf 0 = some 0x43723234 := by
    intro h
    obtain ⟨t, ht⟩ := take4 buf _ _ _ _ h
    subst ht
    simp [readUInt32BE, List.getD]
    decide
  have magicOfBE : 4 ≤ buf.length → readUInt32BE buf 0 = some 0x43723234 →
      buf.take 4 = crxMagic := by
    intro hlen hbe
    match buf, hlen with
    | a :: b :: c :: d :: t, _ =>
      simp [readUInt32BE, List.getD] at hbe
      have ha := a.isLt
      have hb := b.isLt
      have hc := c.isLt
      have hd := d.isLt
      have hva : a.val = 0x43 := by omega
      have hvb : b.val = 0x72 := by omega
      have hvc : c.val = 0x32 := by omega
      have hvd : d.val = 0x34 := by omega
      simp [crxMagic, List.take]
      exact ⟨Fin.ext hva, Fin.ext hvb, Fin.ext hvc, Fin.ext hvd⟩
  refine ⟨?_, ?_, ?_, ?_⟩
  · intro pk sig hm hv hpk hsig
    simp [defaultParseCRX, beOfMagic hm, hv, hpk, hsig]
  · intro hlen hm hv hh
    simp [defaultParseCRX, beOfMagic hm, hv, hh]
  · intro hlen hm
    have : ∃ m, readUInt32BE buf 0 = some m := by
      simp [readUInt32BE]
      omega
    obtain ⟨m, hbe⟩ := this
    have hne : m ≠ 0x43723234 := by
      intro hcontra
      exact hm (magicOfBE hlen (hcontra ▸ hbe))
    refine ⟨by simp [defaultParseCRX, hbe, hne], by decide⟩
  · intro v hm hv h2 h3
    refine ⟨by simp [defaultParseCRX, beOfMagic hm, hv, h2, h3], by decide⟩

/-- Concrete instances of every branch of `defaultParseCRX_spec`: a version-2
buffer with key length 1 and signature length 0, a version-3 buffer with
header length 2, a buffer with a wrong magic, and a version-9 buffer. -/
theorem defaultParseCRX_spec_witness :
    defaultParseCRX [0x43, 0x72, 0x32, 0x34, 2, 0, 0, 0, 1, 0, 0, 0, 0, 0, 0, 0, 9, 8, 7, 6]
      = .ok [8, 7, 6] ∧
    defaultParseCRX [0x43, 0x72, 0x32, 0x34, 3, 0, 0, 0, 2, 0, 0, 0, 5, 5, 1, 2, 3]
      = .ok [1, 2, 3] ∧
    defaultParseCRX [0, 0, 0, 0, 2, 0, 0, 0] = .error invalidHeaderMsg ∧
    defaultParseCRX [0x43, 0x72, 0x32, 0x34, 9, 0, 0, 0] = .error unexpectedVersionMsg := by
  refine ⟨?_, ?_, ?_, ?_⟩
  · have h := (defaultParseCRX_spec
      [0x43, 0x72, 0x32, 0x34, 2, 0, 0, 0, 1, 0, 0, 0, 0, 0, 0, 0, 9, 8, 7, 6]).1
      1 0 (by decide) (by decide) (by decide) (by decide)
    simpa using h
  · have h := (defaultParseCRX_spec
      [0x43, 0x72, 0x32, 0x34, 3, 0, 0, 0, 2, 0, 0, 0, 5, 5, 1, 2, 3]).2.1
      2 (by decide) (by decide) (by decide)
    simpa using h
  · exact ((defaultParseCRX_spec [0, 0, 0, 0, 2, 0, 0, 0]).2.2.1
      (by decide) (by decide)).1
  · exact ((defaultParseCRX_spec [0x43, 0x72, 0x32, 0x34, 9, 0, 0, 0]).2.2.2
      9 (by decide) (by decide) (by decide) (by decide)).1

theorem handleEntry_skip (scan : String → Bool → Bool) (acc : EnumAcc) (e : Entry)
    (h : isScannedFile scan e = false) : handleEntry scan acc e = acc := by
  unfold isScannedFile at h
  unfold handleEntry
  by_cases h1 : strEndsWithChar e.fileName '/' = true
  · simp [h1]
  · have h1f : strEndsWithChar e.fileName '/' = false := by simpa using h1
    rw [h1f] at h
    simp only [Bool.false_eq_true, if_false] at h
    simp [h1f, h]

theorem isScannedFile_parts (scan : String → Bool → Bool) (e : Entry)
    (h : isScannedFile scan e = true) :
    strEndsWithChar e.fileName '/' = false ∧ scan e.fileName false = true := by
  unfold isScannedFile at h
  by_cases h1 : strEndsWithChar e.fileName '/' = true
  · rw [h1] at h
    simp at h
  · have h1f : strEndsWithChar e.fileName '/' = false := by simpa using h1
    rw [h1f] at h
    simp only [Bool.false_eq_true, if_false] at h
    exact ⟨h1f, h⟩

theorem handleEntry_new (scan : String → Bool → Bool) (acc : EnumAcc) (e : Entry)
    (h : isScannedFile scan e = true) (hm : e.fileName ∉ acc.entries) :
    handleEntry scan acc e =
      { acc with entries := acc.entries ++ [e.fileName],
                 files := acc.files ++ [(e.fileName, e)] } := by
  obtain ⟨h1, h2⟩ := isScannedFile_parts scan e h
  unfold handleEntry
  simp [h1, h2, hm]

theorem handleEntry_dup_none (scan : String → Bool → Bool) (acc : EnumAcc) (e : Entry)
    (h : isScannedFile scan e = true) (hm : e.fileName ∈ acc.entries)
    (he : acc.firstError = none) :
    handleEntry scan acc e = { acc with firstError := some (.duplicateEntry e.fileName) } := by
  obtain ⟨h1, h2⟩ := isScannedFile_parts scan e h
  unfold handleEntry
  simp [h1, h2, hm, he]

theorem handleEntry_dup_some (scan : String → Bool → Bool) (acc : EnumAcc) (e : Entry)
    (h : isScannedFile scan e = true) (hm : e.fileName ∈ acc.entries)
    (he : acc.firstError ≠ none) : handleEntry scan acc e = acc := by
  obtain ⟨h1, h2⟩ := isScannedFile_parts scan e h
  unfold handleEntry
  simp [h1, h2, hm, he]

theorem enumFold_nil (scan : String → Bool → Bool) (acc : EnumAcc) :
    enumFold scan acc [] = acc := rfl

theorem enumFold_cons (scan : String → Bool → Bool) (acc : EnumAcc) (e : Entry)
    (l : List Entry) :
    enumFold scan acc (e :: l) = enumFold scan (handleEntry scan acc e) l := rfl

theorem acceptedNames_nil (scan : String → Bool → Bool) : acceptedNames scan [] = [] := rfl

theorem acceptedNames_cons_pos (scan : String → Bool → Bool) (e : Entry) (l : List Entry)
    (h : isScannedFile scan e = true) :
    acceptedNames scan (e :: l) = e.fileName :: acceptedNames scan l := by
  unfold acceptedNames
  simp [List.filter_cons, h]

theorem acceptedNames_cons_neg (scan : String → Bool → Bool) (e : Entry) (l : List Entry)
    (h : isScannedFile scan e = false) :
    acceptedNames scan (e :: l) = acceptedNames scan l := by
  unfold acceptedNames
  simp [List.filter_cons, h]

theorem countOcc_pos_iff (s : String) (l : List String) : 1 ≤ countOcc s l ↔ s ∈ l := by
  induction l with
  | nil => simp [countOcc]
  | cons x xs ih =>
    by_cases h : x = s
    · subst h
      simp [countOcc]
    · simp only [countOcc, if_neg h, Nat.zero_add, ih, List.mem_cons]
      constructor
      · exact fun hm => Or.inr hm
      · rintro (hc | hm)
        · exact absurd hc.symm h
        · exact hm

theorem nodup_iff_countOcc (l : List String) : l.Nodup ↔ ∀ s, countOcc s l ≤ 1 := by
  induction l with
  | nil => simp [countOcc]
  | cons x xs ih =>
    rw [List.nodup_cons]
    constructor
    · rintro ⟨hx, hnd⟩ s
      by_cases h : x = s
      · subst h
        have : countOcc x xs = 0 := by
          by_contra hc
          exact hx ((countOcc_pos_iff x xs).mp (by omega))
        simp [countOcc, this]
      · have := (ih.mp hnd) s
        simp [countOcc, h]
        omega
    · intro h
      constructor
      · intro hmem
        have h1 := (countOcc_pos_iff x xs).mpr hmem
        have h2 := h x
        simp [countOcc] at h2
        omega
      · refine ih.mpr fun s => ?_
        have := h s
        unfold countOcc at this
        omega

theorem countOcc_othersThan (p : String) (l : List String) (q : String) (h : q ≠ p) :
    countOcc q (othersThan p l) = countOcc q l := by
  induction l with
  | nil => rfl
  | cons x xs ih =>
    by_cases hx : x = p
    · have hq : x ≠ q := fun hc => h (hx ▸ hc.symm)
      simp only [othersThan, if_pos hx, countOcc, if_neg hq, ih, Nat.zero_add]
    · simp only [othersThan, if_neg hx, countOcc, ih]

theorem enumFold_error_persists (scan : String → Bool → Bool) (l : List Entry) :
    ∀ (acc : EnumAcc) (err : XpiError), acc.firstError = some err →
      (enumFold scan acc l).firstError = some err := by
  induction l with
  | nil => intro acc err he; simpa [enumFold_nil] using he
  | cons e rest ih =>
    intro acc err he
    rw [enumFold_cons]
    refine ih _ err ?_
    by_cases hs : isScannedFile scan e = true
    · by_cases hm : e.fileName ∈ acc.entries
      · rw [handleEntry_dup_some scan acc e hs hm (by simp [he])]
        exact he
      · rw [handleEntry_new scan acc e hs hm]
        exact he
    · rw [handleEntry_skip scan acc e (by simpa using hs)]
      exact he

theorem enumFold_mem_entries (scan : String → Bool → Bool) (l : List Entry) :
    ∀ (acc : EnumAcc) (n : String),
      n ∈ (enumFold scan acc l).entries ↔ n ∈ acc.entries ∨ n ∈ acceptedNames scan l := by
  induction l with
  | nil => intro acc n; simp [enumFold_nil, acceptedNames_nil]
  | cons e rest ih =>
    intro acc n
    rw [enumFold_cons]
    by_cases hs : isScannedFile scan e = true
    · rw [acceptedNames_cons_pos scan e rest hs]
      by_cases hm : e.fileName ∈ acc.entries
      · have hentries : (handleEntry scan acc e).entries = acc.entries := by
          by_cases he : acc.firstError = none
          · rw [handleEntry_dup_none scan acc e hs hm he]
          · rw [handleEntry_dup_some scan acc e hs hm he]
        rw [ih, hentries]
        simp only [List.mem_cons]
        constructor
        · rintro (h | h)
          · exact Or.inl h
          · exact Or.inr (Or.inr h)
        · rintro (h | h | h)
          · exact Or.inl h
          · exact Or.inl (h ▸ hm)
          · exact Or.inr h
      · rw [handleEntry_new scan acc e hs hm, ih]
        simp only [List.mem_append, List.mem_singleton, List.mem_cons]
        tauto
    · rw [acceptedNames_cons_neg scan e rest (by simpa using hs),
        handleEntry_skip scan acc e (by simpa using hs), ih]

theorem enumFold_files_accepted (scan : String → Bool → Bool) (l : List Entry) :
    ∀ (acc : EnumAcc) (f : String × Entry), f ∈ (enumFold scan acc l).files →
      f ∈ acc.files ∨ scan f.1 false = true := by
  induction l with
  | nil => intro acc f hf; exact Or.inl (by simpa [enumFold_nil] using hf)
  | cons e rest ih =>
    intro acc f hf
    rw [enumFold_cons] at hf
    by_cases hs : isScannedFile scan e = true
    · by_cases hm : e.fileName ∈ acc.entries
      · have hfiles : (handleEntry scan acc e).files = acc.files := by
          by_cases he : acc.firstError = none
          · rw [handleEntry_dup_none scan acc e hs hm he]
          · rw [handleEntry_dup_some scan acc e hs hm he]
        rcases ih _ f hf with h | h
        · exact Or.inl (hfiles ▸ h)
        · exact Or.inr h
      · rw [handleEntry_new scan acc e hs hm] at hf
        rcases ih _ f hf with h | h
        · simp only [List.mem_append, List.mem_singleton] at h
          rcases h with h | h
          · exact Or.inl h
          · subst h
            exact Or.inr (isScannedFile_parts scan e hs).2
        · exact Or.inr h
    · rw [handleEntry_skip scan acc e (by simpa using hs)] at hf
      exact ih _ f hf

theorem enumFold_none_iff (scan : String → Bool → Bool) (l : List Entry) :
    ∀ acc : EnumAcc, acc.firstError = none →
      ((enumFold scan acc l).firstError = none ↔
        (acceptedNames scan l).Nodup ∧ ∀ n ∈ acceptedNames scan l, n ∉ acc.entries) := by
  induction l with
  | nil => intro acc he; simp [enumFold_nil, acceptedNames_nil, he]
  | cons e rest ih =>
    intro acc he
    rw [enumFold_cons]
    by_cases hs : isScannedFile scan e = true
    · rw [acceptedNames_cons_pos scan e rest hs]
      by_cases hm : e.fileName ∈ acc.entries
      · rw [handleEntry_dup_none scan acc e hs hm he]
        have herr := enumFold_error_persists scan rest
          { acc with firstError := some (.duplicateEntry e.fileName) }
          (.duplicateEntry e.fileName) rfl
        rw [herr]
        constructor
        · intro h
          exact absurd h (by simp)
        · rintro ⟨_, hall⟩
          exact absurd hm (hall e.fileName (by simp))
      · rw [handleEntry_new scan acc e hs hm,
          ih { acc with entries := acc.entries ++ [e.fileName],
                        files := acc.files ++ [(e.fileName, e)] } he]
        simp only [List.nodup_cons, List.mem_cons, List.mem_append,
          List.not_mem_nil, or_false]
        constructor
        · rintro ⟨hnd, hall⟩
          refine ⟨⟨fun hc => (hall e.fileName hc) (Or.inr rfl), hnd⟩, ?_⟩
          rintro n (rfl | hn)
          · exact hm
          · exact fun hc => (hall n hn) (Or.inl hc)
        · rintro ⟨⟨hnotin, hnd⟩, hall⟩
          refine ⟨hnd, fun n hn => ?_⟩
          rintro (hc | rfl)
          · exact (hall n (Or.inr hn)) hc
          · exact hnotin hn
    · rw [acceptedNames_cons_neg scan e rest (by simpa using hs),
        handleEntry_skip scan acc e (by simpa using hs), ih acc he]

theorem enumFold_some_dup (scan : String → Bool → Bool) (l : List Entry) :
    ∀ (acc : EnumAcc) (err : XpiError), acc.firstError = none →
      (enumFold scan acc l).firstError = some err →
      ∃ q, err = .duplicateEntry q ∧
        ((q ∈ acc.entries ∧ q ∈ acceptedNames scan l) ∨
          2 ≤ countOcc q (acceptedNames scan l)) := by
  induction l with
  | nil =>
    intro acc err he hfe
    rw [enumFold_nil] at hfe
    rw [he] at hfe
    exact absurd hfe (by simp)
  | cons e rest ih =>
    intro acc err he hfe
    rw [enumFold_cons] at hfe
    by_cases hs : isScannedFile scan e = true
    · rw [acceptedNames_cons_pos scan e rest hs]
      by_cases hm : e.fileName ∈ acc.entries
      · rw [handleEntry_dup_none scan acc e hs hm he] at hfe
        have herr := enumFold_error_persists scan rest
          { acc with firstError := some (.duplicateEntry e.fileName) }
          (.duplicateEntry e.fileName) rfl
        rw [herr] at hfe
        refine ⟨e.fileName, (Option.some_injective _ hfe).symm, Or.inl ⟨hm, by simp⟩⟩
      · rw [handleEntry_new scan acc e hs hm] at hfe
        obtain ⟨q, hq, hcase⟩ :=
          ih ⟨acc.files ++ [(e.fileName, e)], acc.entries ++ [e.fileName], acc.firstError⟩
            err he hfe
        refine ⟨q, hq, ?_⟩
        rcases hcase with ⟨hqe, hqa⟩ | hcnt
        · have hqe2 : q ∈ acc.entries ++ [e.fileName] := hqe
          simp only [List.mem_append, List.mem_singleton] at hqe2
          rcases hqe2 with hqe2 | hqe2
          · exact Or.inl ⟨hqe2, List.mem_cons_of_mem _ hqa⟩
          · subst hqe2
            have hpos := (countOcc_pos_iff e.fileName (acceptedNames scan rest)).mpr hqa
            refine Or.inr ?_
            simp only [countOcc]
            simp
            omega
        · refine Or.inr ?_
          by_cases hfq : e.fileName = q
          · simp only [countOcc]
            simp [hfq]
            omega
          · simp only [countOcc, if_neg hfq]
            omega
    · rw [acceptedNames_cons_neg scan e rest (by simpa using hs)]
      rw [handleEntry_skip scan acc e (by simpa using hs)] at hfe
      exact ih acc err he hfe

theorem xpiGetFiles_fresh (st : XpiState) (stream : List Entry)
    (h1 : st.processed = false) (h2 : st.zipfileSet = false) :
    (xpiGetFiles st stream).result =
      (match (enumFold st.shouldScanFile ⟨st.files, st.entries, none⟩ stream).firstError with
       | some e => .error e
       | none => .ok (enumFold st.shouldScanFile ⟨st.files, st.entries, none⟩ stream).files) ∧
    (xpiGetFiles st stream).state =
      { st with zipfileSet := true, zipfileIsOpen := true,
                files := (enumFold st.shouldScanFile ⟨st.files, st.entries, none⟩ stream).files,
                entries := (enumFold st.shouldScanFile ⟨st.files, st.entries, none⟩ stream).entries,
                processed := true } ∧
    (xpiGetFiles st stream).invokedZipOpen = true := by
  unfold xpiGetFiles xpiOpen
  simp [h1, h2, enumFold]

theorem xpiGetFiles_cached (st : XpiState) (stream : List Entry) (h : st.processed = true) :
    xpiGetFiles st stream =
      { result := .ok (st.files.filter fun f => st.shouldScanFile f.1 false),
        state := st, invokedZipOpen := false } := by
  unfold xpiGetFiles
  simp [h]

theorem getFiles_dup_core (scan : String → Bool → Bool) (stream : List Entry) (p : String)
    (h1 : 2 ≤ countOcc p (acceptedNames scan stream))
    (h2 : (othersThan p (acceptedNames scan stream)).Nodup) :
    (enumFold scan ⟨[], [], none⟩ stream).firstError = some (.duplicateEntry p) := by
  have hne : (enumFold scan ⟨[], [], none⟩ stream).firstError ≠ none := by
    intro hnone
    have hnd := ((enumFold_none_iff scan stream ⟨[], [], none⟩ rfl).mp hnone).1
    have := (nodup_iff_countOcc _).mp hnd p
    omega
  cases hfe : (enumFold scan ⟨[], [], none⟩ stream).firstError with
  | none => exact absurd hfe hne
  | some err =>
    obtain ⟨q, hq, hcase⟩ := enumFold_some_dup scan stream ⟨[], [], none⟩ err rfl hfe
    have hqp : q = p := by
      by_contra hqp
      rcases hcase with ⟨hqe, _⟩ | hcnt
      · simp at hqe
      · have hle := (nodup_iff_countOcc _).mp h2 q
        rw [countOcc_othersThan p _ q hqp] at hle
        omega
    rw [hq, hqp]

/-- Claim C2: on a fresh Xpi reader, an entry stream that emits the same
non-directory, predicate-accepted relative path twice makes `getFiles()`
settle with a duplicate-entry rejection naming that path; no table is
returned (the promise result is the error, so neither occurrence is kept),
and the rejection is the call's final outcome (no retry).  `countOcc` counts
the occurrences among the names that reach the duplicate check, and the
second hypothesis says the duplicated path is the first (only) duplicate. -/
theorem xpiGetFiles_duplicate_rejects (st : XpiState) (stream : List Entry) (p : String)
    (hproc : st.processed = false) (hzip : st.zipfileSet = false)
    (hfiles : st.files = []) (hentries : st.entries = [])
    (h1 : 2 ≤ countOcc p (acceptedNames st.shouldScanFile stream))
    (h2 : (othersThan p (acceptedNames st.shouldScanFile stream)).Nodup) :
    (xpiGetFiles st stream).result = .error (.duplicateEntry p) := by
  obtain ⟨hres, _, _⟩ := xpiGetFiles_fresh st stream hproc hzip
  rw [hfiles, hentries] at hres
  rw [hres, getFiles_dup_core st.shouldScanFile stream p h1 h2]

/-- Concrete instance of `xpiGetFiles_duplicate_rejects`: a fresh reader over
a stream that emits `manifest.json` twice. -/
theorem xpiGetFiles_duplicate_rejects_witness :
    (xpiGetFiles (mkXpi "foo/bar" true)
        [⟨"manifest.json", 851, []⟩, ⟨"manifest.json", 851, []⟩]).result
      = .error (.duplicateEntry "manifest.json") :=
  xpiGetFiles_duplicate_rejects (mkXpi "foo/bar" true)
    [⟨"manifest.json", 851, []⟩, ⟨"manifest.json", 851, []⟩] "manifest.json"
    rfl rfl rfl rfl (by decide) (by decide)

/-- Claim C9: duplicate detection only applies to entries accepted by the
current scan predicate.  On a fresh reader whose accepted names are pairwise
distinct (in particular when the only repeated path is refused by the
predicate), `getFiles()` resolves with the enumerated table, and no path the
predicate refuses ever appears in the instance's table. -/
theorem xpiGetFiles_filtered_duplicates_ok (st : XpiState) (stream : List Entry)
    (hproc : st.processed = false) (hzip : st.zipfileSet = false)
    (hfiles : st.files = []) (hentries : st.entries = [])
    (hnd : (acceptedNames st.shouldScanFile stream).Nodup) :
    (xpiGetFiles st stream).result
      = .ok (enumFold st.shouldScanFile ⟨[], [], none⟩ stream).files ∧
    ∀ p, st.shouldScanFile p false = false →
      ((xpiGetFiles st stream).state.files.all fun f => f.1 ≠ p) = true := by
  obtain ⟨hres, hstate, _⟩ := xpiGetFiles_fresh st stream hproc hzip
  rw [hfiles, hentries] at hres hstate
  have hnone : (enumFold st.shouldScanFile ⟨[], [], none⟩ stream).firstError = none :=
    (enumFold_none_iff st.shouldScanFile stream ⟨[], [], none⟩ rfl).mpr ⟨hnd, by simp⟩
  constructor
  · rw [hres, hnone]
  · intro p hp
    have hsf : (xpiGetFiles st stream).state.files
        = (enumFold st.shouldScanFile ⟨[], [], none⟩ stream).files := by rw [hstate]
    rw [hsf, List.all_eq_true]
    intro f hf
    rcases enumFold_files_accepted st.shouldScanFile stream ⟨[], [], none⟩ f hf with h | h
    · simp at h
    · refine decide_eq_true fun hc => ?_
      rw [hc, hp] at h
      exact absurd h (by simp)

/-- Concrete instance of `xpiGetFiles_filtered_duplicates_ok`: the predicate
refuses `manifest.json`, the stream emits it twice; enumeration completes and
the table only holds `chrome.manifest`. -/
theorem xpiGetFiles_filtered_duplicates_ok_witness :
    (xpiGetFiles (setScanFileCallback (mkXpi "foo/bar" true)
        (fun s _ => if s = "manifest.json" then false else true))
        [⟨"manifest.json", 851, []⟩, ⟨"manifest.json", 851, []⟩,
          ⟨"chrome.manifest", 275, []⟩]).result
      = .ok [("chrome.manifest", ⟨"chrome.manifest", 275, []⟩)] ∧
    ((xpiGetFiles (setScanFileCallback (mkXpi "foo/bar" true)
        (fun s _ => if s = "manifest.json" then false else true))
        [⟨"manifest.json", 851, []⟩, ⟨"manifest.json", 851, []⟩,
          ⟨"chrome.manifest", 275, []⟩]).state.files.all
        fun f => f.1 ≠ "manifest.json") = true := by
  have h := xpiGetFiles_filtered_duplicates_ok
    (setScanFileCallback (mkXpi "foo/bar" true)
      (fun s _ => if s = "manifest.json" then false else true))
    [⟨"manifest.json", 851, []⟩, ⟨"manifest.json", 851, []⟩, ⟨"chrome.manifest", 275, []⟩]
    rfl rfl rfl rfl (by decide)
  exact ⟨h.1, h.2 "manifest.json" (by decide)⟩

/-- Counterexample to claim C3: after a first `getFiles()` that fails with a
duplicate-entry rejection, the reader is NOT left without a usable cache.
The `end` handler of the still-running stream marks the instance processed,
so a second `getFiles()` does not invoke the low-level open again and is
served from the partially populated table (which kept the first occurrence of
the duplicated path). -/
theorem xpiGetFiles_failed_not_memoized_counterexample :
    (xpiGetFiles (mkXpi "foo/bar" true)
        [⟨"manifest.json", 851, []⟩, ⟨"manifest.json", 851, []⟩]).result
      = .error (.duplicateEntry "manifest.json") ∧
    (xpiGetFiles (xpiGetFiles (mkXpi "foo/bar" true)
        [⟨"manifest.json", 851, []⟩, ⟨"manifest.json", 851, []⟩]).state []).invokedZipOpen
      = false ∧
    (xpiGetFiles (xpiGetFiles (mkXpi "foo/bar" true)
        [⟨"manifest.json", 851, []⟩, ⟨"manifest.json", 851, []⟩]).state []).result
      = .ok [("manifest.json", ⟨"manifest.json", 851, []⟩)] := by
  decide

/-- Claim C3 as amended: a first `getFiles()` call that fails with a
duplicate-entry error IS memoized: the stream's `end` event still sets
`this.processed`, so every subsequent `getFiles()` call skips the low-level
open and serves the partially populated table, re-filtered against the
current predicate. -/
theorem xpiGetFiles_failed_call_memoized (st : XpiState) (stream : List Entry) (p : String)
    (hproc : st.processed = false) (hzip : st.zipfileSet = false)
    (hfiles : st.files = []) (hentries : st.entries = [])
    (h1 : 2 ≤ countOcc p (acceptedNames st.shouldScanFile stream))
    (h2 : (othersThan p (acceptedNames st.shouldScanFile stream)).Nodup) :
    (xpiGetFiles st stream).result = .error (.duplicateEntry p) ∧
    (xpiGetFiles st stream).state.processed = true ∧
    ∀ stream2 : List Entry,
      (xpiGetFiles (xpiGetFiles st stream).state stream2).invokedZipOpen = false ∧
      (xpiGetFiles (xpiGetFiles st stream).state stream2).result
        = .ok ((xpiGetFiles st stream).state.files.filter
            fun f => (xpiGetFiles st stream).state.shouldScanFile f.1 false) := by
  obtain ⟨hres, hstate, _⟩ := xpiGetFiles_fresh st stream hproc hzip
  rw [hfiles, hentries] at hres
  have hp2 : (xpiGetFiles st stream).state.processed = true := by rw [hstate]
  refine ⟨by rw [hres, getFiles_dup_core st.shouldScanFile stream p h1 h2], hp2, ?_⟩
  intro stream2
  rw [xpiGetFiles_cached _ stream2 hp2]
  exact ⟨rfl, rfl⟩

/-- Concrete instance of `xpiGetFiles_failed_call_memoized`. -/
theorem xpiGetFiles_failed_call_memoized_witness :
    (xpiGetFiles (mkXpi "bar/baz" true)
        [⟨"main.js", 85, []⟩, ⟨"main.js", 85, []⟩]).result
      = .error (.duplicateEntry "main.js") ∧
    (xpiGetFiles (mkXpi "bar/baz" true)
        [⟨"main.js", 85, []⟩, ⟨"main.js", 85, []⟩]).state.processed = true ∧
    (xpiGetFiles (xpiGetFiles (mkXpi "bar/baz" true)
        [⟨"main.js", 85, []⟩, ⟨"main.js", 85, []⟩]).state []).invokedZipOpen = false := by
  have h := xpiGetFiles_failed_call_memoized (mkXpi "bar/baz" true)
    [⟨"main.js", 85, []⟩, ⟨"main.js", 85, []⟩] "main.js"
    rfl rfl rfl rfl (by decide) (by decide)
  exact ⟨h.1, h.2.1, (h.2.2 []).1⟩

/-- Claim C4: after one successful `getFiles()` on a fresh reader, every
later call skips the low-level zip open and leaves the instance unchanged;
with the predicate untouched the very same table is returned (in particular
the same key set), and after `setScanFileCallback` the call returns exactly
the memoized entries accepted by the new predicate — the filtered view is
re-derived from the raw table on every call. -/
theorem xpiGetFiles_cached_refiltered (st : XpiState) (stream : List Entry)
    (t : List (String × Entry))
    (hproc : st.processed = false) (hzip : st.zipfileSet = false)
    (hfiles : st.files = []) (hentries : st.entries = [])
    (hok : (xpiGetFiles st stream).result = .ok t) :
    (∀ stream2 : List Entry,
      (xpiGetFiles (xpiGetFiles st stream).state stream2).invokedZipOpen = false ∧
      (xpiGetFiles (xpiGetFiles st stream).state stream2).state
        = (xpiGetFiles st stream).state ∧
      (xpiGetFiles (xpiGetFiles st stream).state stream2).result = .ok t) ∧
    (∀ (pred1 : String → Bool → Bool) (stream2 : List Entry),
      (xpiGetFiles (setScanFileCallback (xpiGetFiles st stream).state pred1)
          stream2).invokedZipOpen = false ∧
      (xpiGetFiles (setScanFileCallback (xpiGetFiles st stream).state pred1)
          stream2).result
        = .ok ((xpiGetFiles st stream).state.files.filter fun f => pred1 f.1 false)) := by
  obtain ⟨hres, hstate, _⟩ := xpiGetFiles_fresh st stream hproc hzip
  rw [hfiles, hentries] at hres hstate
  rw [hres] at hok
  have hcase : (enumFold st.shouldScanFile ⟨[], [], none⟩ stream).firstError = none ∧
      t = (enumFold st.shouldScanFile ⟨[], [], none⟩ stream).files := by
    cases hfe : (enumFold st.shouldScanFile ⟨[], [], none⟩ stream).firstError with
    | some e =>
      rw [hfe] at hok
      exact absurd hok (by simp)
    | none =>
      rw [hfe] at hok
      simp only [Except.ok.injEq] at hok
      exact ⟨rfl, hok.symm⟩
  have hp2 : (xpiGetFiles st stream).state.processed = true := by rw [hstate]
  have hsf : (xpiGetFiles st stream).state.files
      = (enumFold st.shouldScanFile ⟨[], [], none⟩ stream).files := by rw [hstate]
  have hsc : (xpiGetFiles st stream).state.shouldScanFile = st.shouldScanFile := by
    rw [hstate]
  have hfilter : (enumFold st.shouldScanFile ⟨[], [], none⟩ stream).files.filter
      (fun f => st.shouldScanFile f.1 false)
      = (enumFold st.shouldScanFile ⟨[], [], none⟩ stream).files := by
    refine List.filter_eq_self.mpr fun f hf => ?_
    rcases enumFold_files_accepted st.shouldScanFile stream ⟨[], [], none⟩ f hf with h | h
    · simp at h
    · exact h
  constructor
  · intro stream2
    rw [xpiGetFiles_cached _ stream2 hp2]
    refine ⟨rfl, rfl, ?_⟩
    show Except.ok ((xpiGetFiles st stream).state.files.filter
      fun f => (xpiGetFiles st stream).state.shouldScanFile f.1 false) = Except.ok t
    rw [hsf, hsc, hfilter, hcase.2]
  · intro pred1 stream2
    have hp3 : (setScanFileCallback (xpiGetFiles st stream).state pred1).processed = true := by
      simp [setScanFileCallback, hp2]
    rw [xpiGetFiles_cached _ stream2 hp3]
    exact ⟨rfl, rfl⟩

/-- Concrete instance of `xpiGetFiles_cached_refiltered`: one successful
enumeration, then a cached call with the same predicate and a cached call
with a predicate that refuses everything. -/
theorem xpiGetFiles_cached_refiltered_witness :
    (xpiGetFiles (xpiGetFiles (mkXpi "foo/bar" true) [⟨"main.js", 85, []⟩]).state
        []).invokedZipOpen = false ∧
    (xpiGetFiles (xpiGetFiles (mkXpi "foo/bar" true) [⟨"main.js", 85, []⟩]).state
        []).result = .ok [("main.js", ⟨"main.js", 85, []⟩)] ∧
    (xpiGetFiles (setScanFileCallback
        (xpiGetFiles (mkXpi "foo/bar" true) [⟨"main.js", 85, []⟩]).state
        (fun _ _ => false)) []).result = .ok [] := by
  have h := xpiGetFiles_cached_refiltered (mkXpi "foo/bar" true) [⟨"main.js", 85, []⟩]
    [("main.js", ⟨"main.js", 85, []⟩)] rfl rfl rfl rfl (by decide)
  refine ⟨(h.1 []).1, (h.1 []).2.2, ?_⟩
  have h2 := (h.2 (fun _ _ => false) []).2
  rw [h2]
  decide

/-- Claim C5: an entry recorded in the table with an uncompressed size
strictly above the ceiling makes the Xpi stream and string accessors and the
directory reader's `getPath` reject with the `too large` error before any
read stream is opened, and a path absent from the table makes the same
operations reject with the `does not exist` error instead. -/
theorem accessor_size_existence_guards (st : XpiState) (cwd : List String)
    (dst : DirState) (p : String) :
    (∀ e : Entry, assocLookup st.files p = some e →
      st.maxSizeBytes < e.uncompressedSize →
      xpiGetFileAsStream st p = ⟨.error (tooLargeXpiMsg p), false⟩ ∧
      xpiGetFileAsString st p = ⟨.error (tooLargeXpiMsg p), false⟩) ∧
    (∀ f : DirFile, assocLookup dst.files p = some f →
      dst.maxSizeBytes < f.size →
      dirGetPath cwd dst p = .error (tooLargeDirMsg p)) ∧
    (assocLookup st.files p = none →
      xpiGetFileAsStream st p = ⟨.error (pathNoExistXpiMsg p), false⟩ ∧
      xpiGetFileAsString st p = ⟨.error (pathNoExistXpiMsg p), false⟩) ∧
    (assocLookup dst.files p = none →
      dirGetPath cwd dst p = .error (pathNoExistDirMsg p)) := by
  refine ⟨?_, ?_, ?_, ?_⟩
  · intro e hl hs
    have hc : checkPath st p = .error (tooLargeXpiMsg p) := by
      unfold checkPath
      rw [hl]
      simp [hs]
    constructor
    · unfold xpiGetFileAsStream
      rw [hc]
    · unfold xpiGetFileAsString xpiGetFileAsStream
      rw [hc]
  · intro f hl hs
    unfold dirGetPath
    rw [hl]
    simp [hs]
  · intro hl
    have hc : checkPath st p = .error (pathNoExistXpiMsg p) := by
      unfold checkPath
      rw [hl]
    constructor
    · unfold xpiGetFileAsStream
      rw [hc]
    · unfold xpiGetFileAsString xpiGetFileAsStream
      rw [hc]
  · intro hl
    unfold dirGetPath
    rw [hl]

/-- Concrete instances of `accessor_size_existence_guards`: a 102MB entry
against the 100MB ceiling, and a missing path, for both readers. -/
theorem accessor_size_existence_guards_witness :
    xpiGetFileAsStream
        { path := "foo/bar",
          files := [("manifest.json", ⟨"manifest.json", 106954752, []⟩)],
          entries := ["manifest.json"], processed := true,
          shouldScanFile := fun _ _ => true, autoClose := true,
          zipfileSet := false, zipfileIsOpen := false, maxSizeBytes := 104857600 }
        "manifest.json"
      = ⟨.error (tooLargeXpiMsg "manifest.json"), false⟩ ∧
    dirGetPath []
        { path := "/root", files := [("big.txt", ⟨106954752⟩)], maxSizeBytes := 104857600 }
        "big.txt"
      = .error (tooLargeDirMsg "big.txt") ∧
    xpiGetFileAsString
        { path := "foo/bar",
          files := [("manifest.json", ⟨"manifest.json", 106954752, []⟩)],
          entries := ["manifest.json"], processed := true,
          shouldScanFile := fun _ _ => true, autoClose := true,
          zipfileSet := false, zipfileIsOpen := false, maxSizeBytes := 104857600 }
        "whatever"
      = ⟨.error (pathNoExistXpiMsg "whatever"), false⟩ ∧
    dirGetPath []
        { path := "/root", files := [("big.txt", ⟨106954752⟩)], maxSizeBytes := 104857600 }
        "missing"
      = .error (pathNoExistDirMsg "missing") := by
  refine ⟨?_, ?_, ?_, ?_⟩
  · exact ((accessor_size_existence_guards
      { path := "foo/bar",
        files := [("manifest.json", ⟨"manifest.json", 106954752, []⟩)],
        entries := ["manifest.json"], processed := true,
        shouldScanFile := fun _ _ => true, autoClose := true,
        zipfileSet := false, zipfileIsOpen := false, maxSizeBytes := 104857600 }
      [] { path := "/root", files := [("big.txt", ⟨106954752⟩)], maxSizeBytes := 104857600 }
      "manifest.json").1 ⟨"manifest.json", 106954752, []⟩ (by decide) (by decide)).1
  · exact (accessor_size_existence_guards
      { path := "foo/bar",
        files := [("manifest.json", ⟨"manifest.json", 106954752, []⟩)],
        entries := ["manifest.json"], processed := true,
        shouldScanFile := fun _ _ => true, autoClose := true,
        zipfileSet := false, zipfileIsOpen := false, maxSizeBytes := 104857600 }
      [] { path := "/root", files := [("big.txt", ⟨106954752⟩)], maxSizeBytes := 104857600 }
      "big.txt").2.1 ⟨106954752⟩ (by decide) (by decide)
  · exact ((accessor_size_existence_guards
      { path := "foo/bar",
        files := [("manifest.json", ⟨"manifest.json", 106954752, []⟩)],
        entries := ["manifest.json"], processed := true,
        shouldScanFile := fun _ _ => true, autoClose := true,
        zipfileSet := false, zipfileIsOpen := false, maxSizeBytes := 104857600 }
      [] { path := "/root", files := [("big.txt", ⟨106954752⟩)], maxSizeBytes := 104857600 }
      "whatever").2.2.1 (by decide)).2
  · exact (accessor_size_existence_guards
      { path := "foo/bar",
        files := [("manifest.json", ⟨"manifest.json", 106954752, []⟩)],
        entries := ["manifest.json"], processed := true,
        shouldScanFile := fun _ _ => true, autoClose := true,
        zipfileSet := false, zipfileIsOpen := false, maxSizeBytes := 104857600 }
      [] { path := "/root", files := [("big.txt", ⟨106954752⟩)], maxSizeBytes := 104857600 }
      "missing").2.2.2 (by decide)

theorem charsPrefixOf_append (xs ys : List Char) : charsPrefixOf xs (xs ++ ys) = true := by
  induction xs with
  | nil => rfl
  | cons a as ih => simp [charsPrefixOf, ih]

theorem spec_liesUnder_exists (root : List String) :
    ∀ target : List String, spec_liesUnderRoot root target = true →
      ∃ rest, target = root ++ rest := by
  induction root with
  | nil => intro target _; exact ⟨target, rfl⟩
  | cons a as ih =>
    intro target h
    cases target with
    | nil => exact absurd h (by simp [spec_liesUnderRoot])
    | cons b bs =>
      unfold spec_liesUnderRoot at h
      by_cases hab : a = b
      · rw [if_pos hab] at h
        obtain ⟨rest, hrest⟩ := ih bs h
        exact ⟨rest, by rw [hrest, hab]; rfl⟩
      · rw [if_neg hab] at h
        exact absurd h (by simp)

theorem renderAbsChars_append (a b : List String) :
    renderAbsChars (a ++ b) = renderAbsChars a ++ renderAbsChars b := by
  simp [renderAbsChars]

theorem strPrefixOf_of_liesUnder (root target : List String)
    (h : spec_liesUnderRoot root target = true) :
    strPrefixOf (renderAbs root) (renderAbs target) = true := by
  obtain ⟨rest, hrest⟩ := spec_liesUnder_exists root target h
  subst hrest
  cases root with
  | nil =>
    cases rest with
    | nil => rfl
    | cons t ts =>
      show charsPrefixOf ['/'] (renderAbsChars (t :: ts)) = true
      show charsPrefixOf ['/'] ('/' :: (t.data ++ renderAbsChars ts)) = true
      simp [charsPrefixOf]
  | cons r rs =>
    have hne : (r :: rs) ++ rest ≠ [] := by simp
    unfold renderAbs strPrefixOf
    rw [if_neg (by simp), if_neg hne]
    show charsPrefixOf (renderAbsChars (r :: rs))
      (renderAbsChars ((r :: rs) ++ rest)) = true
    rw [renderAbsChars_append]
    exact charsPrefixOf_append _ _

/-- Counterexample to claim C6: the traversal guard is a string-prefix check,
not a lies-under-the-root check.  With archive root `/a/b`, the table key
`../bc/f` resolves to `/a/bc/f`, which does not lie under `/a/b` but does
extend it as a string; `getPath` resolves with `/a/bc/f` instead of
rejecting with the `must be relative` error. -/
theorem dirGetPath_traversal_counterexample :
    dirGetPath []
        { path := "/a/b", files := [("../bc/f", ⟨1⟩)], maxSizeBytes := 104857600 }
        "../bc/f"
      = .ok "/a/bc/f" ∧
    spec_liesUnderRoot (resolvePath [] "/a/b")
        (normSegs (resolvePath [] "/a/b" ++ splitPath "../bc/f")) = false := by
  decide

/-- Claim C6 as amended: for a key present in the table and within the size
ceiling, `getPath` rejects with the `must be relative` error when the key
starts with `/`, and when the rendered resolved path fails the string-prefix
test against the rendered resolved root (which is what the source checks —
in particular `../file1.txt` style keys are rejected); a key that does not
start with `/` and whose resolved path truly lies under the root resolves
with that absolute path.  The string-prefix test is weaker than the claim's
lies-under-the-root condition, as `dirGetPath_traversal_counterexample`
shows. -/
theorem dirGetPath_guard_amended (cwd : List String) (st : DirState) (p : String)
    (f : DirFile) (hl : assocLookup st.files p = some f)
    (hs : f.size ≤ st.maxSizeBytes) :
    (strStartsWithChar p '/' = true →
      dirGetPath cwd st p = .error (mustBeRelativeMsg st.path)) ∧
    (strPrefixOf (renderAbs (resolvePath cwd st.path))
        (renderAbs (normSegs (resolvePath cwd st.path ++ splitPath p))) = false →
      dirGetPath cwd st p = .error (mustBeRelativeMsg st.path)) ∧
    (strStartsWithChar p '/' = false →
      spec_liesUnderRoot (resolvePath cwd st.path)
        (normSegs (resolvePath cwd st.path ++ splitPath p)) = true →
      dirGetPath cwd st p
        = .ok (renderAbs (normSegs (resolvePath cwd st.path ++ splitPath p)))) := by
  have hsz : ¬(f.size > st.maxSizeBytes) := by omega
  refine ⟨?_, ?_, ?_⟩
  · intro hslash
    unfold dirGetPath
    rw [hl]
    simp [hsz, hslash]
  · intro hpre
    unfold dirGetPath
    rw [hl]
    simp [hsz, hpre]
  · intro hslash hunder
    have hpre := strPrefixOf_of_liesUnder _ _ hunder
    unfold dirGetPath
    rw [hl]
    simp [hsz, hpre, hslash]

/-- Concrete instances of `dirGetPath_guard_amended`: the spec's
`/file1.txt` and `../file1.txt` keys are rejected, and an ordinary key
resolves under the root. -/
theorem dirGetPath_guard_amended_witness :
    dirGetPath []
        { path := "/a/b",
          files := [("/file1.txt", ⟨1⟩), ("../file1.txt", ⟨1⟩), ("ok.txt", ⟨1⟩)],
          maxSizeBytes := 104857600 }
        "/file1.txt"
      = .error (mustBeRelativeMsg "/a/b") ∧
    dirGetPath []
        { path := "/a/b",
          files := [("/file1.txt", ⟨1⟩), ("../file1.txt", ⟨1⟩), ("ok.txt", ⟨1⟩)],
          maxSizeBytes := 104857600 }
        "../file1.txt"
      = .error (mustBeRelativeMsg "/a/b") ∧
    dirGetPath []
        { path := "/a/b",
          files := [("/file1.txt", ⟨1⟩), ("../file1.txt", ⟨1⟩), ("ok.txt", ⟨1⟩)],
          maxSizeBytes := 104857600 }
        "ok.txt"
      = .ok "/a/b/ok.txt" := by
  refine ⟨?_, ?_, ?_⟩
  · exact (dirGetPath_guard_amended []
      { path := "/a/b",
        files := [("/file1.txt", ⟨1⟩), ("../file1.txt", ⟨1⟩), ("ok.txt", ⟨1⟩)],
        maxSizeBytes := 104857600 }
      "/file1.txt" ⟨1⟩ (by decide) (by decide)).1 (by decide)
  · exact (dirGetPath_guard_amended []
      { path := "/a/b",
        files := [("/file1.txt", ⟨1⟩), ("../file1.txt", ⟨1⟩), ("ok.txt", ⟨1⟩)],
        maxSizeBytes := 104857600 }
      "../file1.txt" ⟨1⟩ (by decide) (by decide)).2.1 (by decide)
  · have h := (dirGetPath_guard_amended []
      { path := "/a/b",
        files := [("/file1.txt", ⟨1⟩), ("../file1.txt", ⟨1⟩), ("ok.txt", ⟨1⟩)],
        maxSizeBytes := 104857600 }
      "ok.txt" ⟨1⟩ (by decide) (by decide)).2.2 (by decide) (by decide)
    rw [h]
    decide

theorem getFilesByExt_foldl (extensions : List String) (fileNames : List String) :
    ∀ acc : List String,
      (∀ fn ∈ fileNames, (extensions.filter fun ext => strSuffixOf ext fn).length ≤ 1) →
      fileNames.foldl
          (fun a fn => a ++ (extensions.filter fun ext => strSuffixOf ext fn).map fun _ => fn)
          acc
        = acc ++ fileNames.filter fun fn => extensions.any fun ext => strSuffixOf ext fn := by
  induction fileNames with
  | nil => intro acc _; simp
  | cons fn rest ih =>
    intro acc h
    have hfn := h fn (by simp)
    simp only [List.foldl_cons]
    cases hE : extensions.filter (fun ext => strSuffixOf ext fn) with
    | nil =>
      have hany : (extensions.any fun ext => strSuffixOf ext fn) = false := by
        rw [List.any_eq_false]
        exact List.filter_eq_nil_iff.mp hE
      simp only [List.map_nil, List.append_nil]
      rw [ih acc (fun x hx => h x (by simp [hx]))]
      simp [List.filter_cons, hany]
    | cons e1 es =>
      cases es with
      | nil =>
        have he1 : e1 ∈ extensions.filter (fun ext => strSuffixOf ext fn) := by
          rw [hE]; simp
        have hp1 := List.of_mem_filter he1
        have hm1 := List.mem_of_mem_filter he1
        have hany : (extensions.any fun ext => strSuffixOf ext fn) = true := by
          rw [List.any_eq_true]
          exact ⟨e1, hm1, hp1⟩
        simp only [List.map_cons, List.map_nil]
        rw [ih (acc ++ [fn]) (fun x hx => h x (by simp [hx]))]
        simp [List.filter_cons, hany]
      | cons e2 es2 =>
        rw [hE] at hfn
        exact absurd hfn (by simp)

/-- Counterexample to claim C7: when a file name ends with two of the given
extensions it is pushed once per matching extension, so the resolved list is
not the filtered table key list — `a.tar.gz` appears twice for
`getFilesByExt('.gz', '.tar.gz')`. -/
theorem getFilesByExt_overlap_counterexample :
    (getFilesByExt [".gz", ".tar.gz"] ["a.tar.gz", "b.txt"]).result
      = .ok ["a.tar.gz", "a.tar.gz"] ∧
    (["a.tar.gz", "b.txt"].filter fun fn => [".gz", ".tar.gz"].any fun ext =>
      strSuffixOf ext fn) = ["a.tar.gz"] ∧
    (getFilesByExt [".gz", ".tar.gz"] ["a.tar.gz", "b.txt"]).result
      ≠ .ok (["a.tar.gz", "b.txt"].filter fun fn => [".gz", ".tar.gz"].any fun ext =>
          strSuffixOf ext fn) := by
  decide

/-- Claim C7 as amended: with every extension starting with a dot and no
file name matching more than one of the given extensions, `getFilesByExt`
resolves with exactly the table's file names that end with one of the
extensions, in table insertion order (when a name matches several
extensions it is pushed once per match, as
`getFilesByExt_overlap_counterexample` shows); any extension not starting
with a dot makes the call reject with the `File extension must start with
'.'` error before `getFiles()` is invoked. -/
theorem getFilesByExt_spec (extensions fileNames : List String) :
    ((∀ ext ∈ extensions, strStartsWithChar ext '.' = true) →
      (∀ fn ∈ fileNames, (extensions.filter fun ext => strSuffixOf ext fn).length ≤ 1) →
      getFilesByExt extensions fileNames =
        { result := .ok (fileNames.filter fun fn => extensions.any fun ext =>
            strSuffixOf ext fn),
          invokedGetFiles := true }) ∧
    ((∃ ext ∈ extensions, strStartsWithChar ext '.' = false) →
      getFilesByExt extensions fileNames =
        { result := .error extMustStartWithDotMsg, invokedGetFiles := false }) := by
  constructor
  · intro hdots hone
    have hfind : extensions.find? (fun ext => strStartsWithChar ext '.' = false) = none := by
      rw [List.find?_eq_none]
      intro x hx
      simp [hdots x hx]
    unfold getFilesByExt
    rw [hfind, getFilesByExt_foldl extensions fileNames [] hone]
    simp
  · intro hbad
    have hfind : (extensions.find? (fun ext => strStartsWithChar ext '.' = false)).isSome := by
      rw [List.find?_isSome]
      obtain ⟨x, hx, hxf⟩ := hbad
      exact ⟨x, hx, by simp [hxf]⟩
    obtain ⟨w, hw⟩ := Option.isSome_iff_exists.mp hfind
    unfold getFilesByExt
    rw [hw]

/-- Concrete instances of `getFilesByExt_spec`: the spec's `.js` example and
the rejected `css` argument. -/
theorem getFilesByExt_spec_witness :
    getFilesByExt [".js"] ["manifest.json", "chrome.manifest", "main.js", "secondary.js"]
      = { result := .ok ["main.js", "secondary.js"], invokedGetFiles := true } ∧
    getFilesByExt ["css"] ["other.css"]
      = { result := .error extMustStartWithDotMsg, invokedGetFiles := false } := by
  constructor
  · have h := (getFilesByExt_spec [".js"]
      ["manifest.json", "chrome.manifest", "main.js", "secondary.js"]).1
      (by decide) (by decide)
    rw [h]
    decide
  · exact (getFilesByExt_spec ["css"] ["other.css"]).2 ⟨"css", by decide, by decide⟩

/-- Counterexample to claim C8: `getChunkAsBuffer` returns the raw prefix of
the stored bytes while `getFileAsStream` strips a UTF-8 byte-order mark, so
on a file starting with the BOM the two-byte chunk `EF BB` is not a prefix
of the buffered stream content `61`. -/
theorem getChunkAsBuffer_bom_counterexample :
    (xpiGetChunkAsBuffer
        { path := "foo/bar",
          files := [("bom.txt", ⟨"bom.txt", 4, [0xEF, 0xBB, 0xBF, 0x61]⟩)],
          entries := ["bom.txt"], processed := true,
          shouldScanFile := fun _ _ => true, autoClose := true,
          zipfileSet := false, zipfileIsOpen := false, maxSizeBytes := 104857600 }
        "bom.txt" 2).result = .ok [0xEF, 0xBB] ∧
    (xpiGetFileAsStream
        { path := "foo/bar",
          files := [("bom.txt", ⟨"bom.txt", 4, [0xEF, 0xBB, 0xBF, 0x61]⟩)],
          entries := ["bom.txt"], processed := true,
          shouldScanFile := fun _ _ => true, autoClose := true,
          zipfileSet := false, zipfileIsOpen := false, maxSizeBytes := 104857600 }
        "bom.txt").result = .ok [0x61] ∧
    ([0xEF, 0xBB] : List Byte) ≠ [0x61].take 2 := by
  decide

/-- Claim C8 as amended: for a table entry within the size ceiling,
`getChunkAsBuffer(p, n)` returns exactly the first `min(n, byteLength)` raw
bytes of the stored content, without BOM stripping, while `getFileAsStream`
returns the BOM-stripped content; the chunk equals the prefix of the
buffered stream content whenever the stored content does not begin with a
UTF-8 BOM.  The same holds for the directory reader. -/
theorem getChunkAsBuffer_spec :
    (∀ (st : XpiState) (p : String) (e : Entry) (n : Nat),
      assocLookup st.files p = some e → e.uncompressedSize ≤ st.maxSizeBytes →
      (xpiGetChunkAsBuffer st p n).result = .ok (e.contents.take n) ∧
      (e.contents.take n).length = min n e.contents.length ∧
      (xpiGetFileAsStream st p).result = .ok (stripBOM e.contents) ∧
      (e.contents.take 3 ≠ utf8BOM →
        (xpiGetChunkAsBuffer st p n).result = .ok ((stripBOM e.contents).take n))) ∧
    (∀ (cwd : List String) (fs : String → Option (List Byte)) (dst : DirState)
        (p fp : String) (bytes : List Byte) (n : Nat),
      dirGetPath cwd dst p = .ok fp → fs fp = some bytes →
      (dirGetChunkAsBuffer cwd fs dst p n).result = .ok (bytes.take n) ∧
      (dirGetFileAsStream cwd fs dst p).result = .ok (stripBOM bytes) ∧
      (bytes.take 3 ≠ utf8BOM →
        (dirGetChunkAsBuffer cwd fs dst p n).result = .ok ((stripBOM bytes).take n))) := by
  constructor
  · intro st p e n hl hs
    have hc : checkPath st p = .ok e := by
      unfold checkPath
      rw [hl]
      simp
      omega
    have hchunk : (xpiGetChunkAsBuffer st p n).result = .ok (e.contents.take n) := by
      unfold xpiGetChunkAsBuffer
      rw [hc]
    refine ⟨hchunk, List.length_take n e.contents, ?_, ?_⟩
    · unfold xpiGetFileAsStream
      rw [hc]
    · intro hbom
      have hid : stripBOM e.contents = e.contents := by
        unfold stripBOM
        rw [if_neg hbom]
      rw [hid, hchunk]
  · intro cwd fs dst p fp bytes n hp hb
    have hchunk : (dirGetChunkAsBuffer cwd fs dst p n).result = .ok (bytes.take n) := by
      simp [dirGetChunkAsBuffer, hp, hb]
    refine ⟨hchunk, ?_, ?_⟩
    · simp [dirGetFileAsStream, hp, hb]
    · intro hbom
      have hid : stripBOM bytes = bytes := by
        unfold stripBOM
        rw [if_neg hbom]
      rw [hid, hchunk]

/-- Concrete instance of `getChunkAsBuffer_spec` on a BOM-free file: the
chunk is the prefix of the buffered stream content. -/
theorem getChunkAsBuffer_spec_witness :
    (xpiGetChunkAsBuffer
        { path := "foo/bar",
          files := [("file3.txt", ⟨"file3.txt", 4, [0x31, 0x32, 0x33, 0x0A]⟩)],
          entries := ["file3.txt"], processed := true,
          shouldScanFile := fun _ _ => true, autoClose := true,
          zipfileSet := false, zipfileIsOpen := false, maxSizeBytes := 104857600 }
        "file3.txt" 2).result = .ok [0x31, 0x32] ∧
    (dirGetChunkAsBuffer ["cwd"] (fun fp => if fp = "/root/f.txt" then
        some [0x31, 0x32, 0x33, 0x0A] else none)
        { path := "/root", files := [("f.txt", ⟨4⟩)], maxSizeBytes := 104857600 }
        "f.txt" 2).result = .ok [0x31, 0x32] := by
  constructor
  · have h := (getChunkAsBuffer_spec.1
      { path := "foo/bar",
        files := [("file3.txt", ⟨"file3.txt", 4, [0x31, 0x32, 0x33, 0x0A]⟩)],
        entries := ["file3.txt"], processed := true,
        shouldScanFile := fun _ _ => true, autoClose := true,
        zipfileSet := false, zipfileIsOpen := false, maxSizeBytes := 104857600 }
      "file3.txt" ⟨"file3.txt", 4, [0x31, 0x32, 0x33, 0x0A]⟩ 2 (by decide) (by decide)).1
    rw [h]
    decide
  · have h := (getChunkAsBuffer_spec.2 ["cwd"]
      (fun fp => if fp = "/root/f.txt" then some [0x31, 0x32, 0x33, 0x0A] else none)
      { path := "/root", files := [("f.txt", ⟨4⟩)], maxSizeBytes := 104857600 }
      "f.txt" "/root/f.txt" [0x31, 0x32, 0x33, 0x0A] 2 (by decide) (by decide)).1
    rw [h]
    decide

/-- Claim C10: a Crx reader's constructor forces `autoClose`, under which
`close()` never closes anything; its `open()` override leaves the instance
(including the `zipfile` field) untouched, reads the file from disk and
parses the CRX header on every call, and never reuses a descriptor — the
inherited short-circuit of `Xpi.open()` requires `autoClose` to be disabled,
so it cannot fire on a Crx instance. -/
theorem crx_open_always_fresh :
    (∀ fp : String, (mkCrx fp).autoClose = true) ∧
    (∀ st : XpiState, st.autoClose = true → xpiClose st = (st, false)) ∧
    (∀ (st : XpiState) (r : Except String (List Byte)),
      (crxOpen st r).state = st ∧
      (crxOpen st r).readFileFromDisk = true ∧
      (crxOpen st r).reusedDescriptor = false) ∧
    (∀ (st : XpiState) (buf : List Byte),
      (crxOpen st (.ok buf)).parsedCRXHeader = true ∧
      (crxOpen st (.ok buf)).result = defaultParseCRX buf) ∧
    (∀ st : XpiState, st.autoClose = true → (xpiOpen st).invokedZipOpen = true) := by
  refine ⟨fun _ => rfl, ?_, ?_, ?_, ?_⟩
  · intro st h
    unfold xpiClose
    rw [if_pos h]
  · intro st r
    cases r with
    | error e => exact ⟨rfl, rfl, rfl⟩
    | ok buf =>
      cases hp : defaultParseCRX buf with
      | error e2 => simp [crxOpen, hp]
      | ok zb => simp [crxOpen, hp]
  · intro st buf
    cases hp : defaultParseCRX buf with
    | error e2 => simp [crxOpen, hp]
    | ok zb => simp [crxOpen, hp]
  · intro st h
    unfold xpiOpen
    rw [if_neg]
    simp [h]

/-- Concrete instance of `crx_open_always_fresh` on a freshly constructed
Crx reader and a version-2 CRX read result. -/
theorem crx_open_always_fresh_witness :
    (mkCrx "foo/bar.crx").autoClose = true ∧
    xpiClose (mkCrx "foo/bar.crx") = (mkCrx "foo/bar.crx", false) ∧
    (crxOpen (mkCrx "foo/bar.crx")
      (.ok [0x43, 0x72, 0x32, 0x34, 2, 0, 0, 0, 0, 0, 0, 0, 0, 0, 0, 0])).state
      = mkCrx "foo/bar.crx" ∧
    (crxOpen (mkCrx "foo/bar.crx")
      (.ok [0x43, 0x72, 0x32, 0x34, 2, 0, 0, 0, 0, 0, 0, 0, 0, 0, 0, 0])).readFileFromDisk
      = true ∧
    (crxOpen (mkCrx "foo/bar.crx")
      (.ok [0x43, 0x72, 0x32, 0x34, 2, 0, 0, 0, 0, 0, 0, 0, 0, 0, 0, 0])).reusedDescriptor
      = false ∧
    (crxOpen (mkCrx "foo/bar.crx")
      (.ok [0x43, 0x72, 0x32, 0x34, 2, 0, 0, 0, 0, 0, 0, 0, 0, 0, 0, 0])).parsedCRXHeader
      = true ∧
    (xpiOpen (mkCrx "foo/bar.crx")).invokedZipOpen = true := by
  obtain ⟨h1, h2, h3, h4, h5⟩ := crx_open_always_fresh
  exact ⟨h1 "foo/bar.crx", h2 (mkCrx "foo/bar.crx") rfl,
    (h3 (mkCrx "foo/bar.crx") _).1, (h3 (mkCrx "foo/bar.crx") _).2.1,
    (h3 (mkCrx "foo/bar.crx") _).2.2,
    (h4 (mkCrx "foo/bar.crx") [0x43, 0x72, 0x32, 0x34, 2, 0, 0, 0, 0, 0, 0, 0, 0, 0, 0, 0]).1,
    h5 (mkCrx "foo/bar.crx") rfl⟩

end ScannerUtils
